/-
Verification of the inemavox orchestration core against its specification.

The Python sources under src/api/ are shallowly embedded below:
  * stats_tracker.py  — stage catalog, learned-duration store, ETA engine;
  * job_manager.py    — job progress, run-outcome handling, cancellation,
                        notification hub, and the single-worker scheduler
                        (the latter as a labelled transition system);
  * server.py         — the delete endpoint (its JobManager.delete_job
                        callee is absent from the sources and is modelled
                        from the spec where noted).

Numbers are modelled as rationals; Python `round` (banker's rounding,
round-half-to-even) is modelled exactly by `pyRound` below.
-/
import Mathlib

namespace Inemavox

/-! ### Python rounding

`pyRound x` models Python's built-in `round(x)` on exact values:
round-half-to-even. `round1 x` models `round(x, 1)`. -/

def pyRound (x : ℚ) : ℤ :=
  if x - (⌊x⌋ : ℚ) < 1/2 then ⌊x⌋
  else if 1/2 < x - (⌊x⌋ : ℚ) then ⌊x⌋ + 1
  else if ⌊x⌋ % 2 = 0 then ⌊x⌋ else ⌊x⌋ + 1

def round1 (x : ℚ) : ℚ :=
  (pyRound (x * 10) : ℚ) / 10

theorem pyRound_bounds (x : ℚ) : ⌊x⌋ ≤ pyRound x ∧ pyRound x ≤ ⌊x⌋ + 1 := by
  unfold pyRound
  split_ifs <;> omega

theorem pyRound_intCast (n : ℤ) : pyRound (n : ℚ) = n := by
  unfold pyRound
  simp [Int.floor_intCast]

theorem pyRound_mono {x y : ℚ} (h : x ≤ y) : pyRound x ≤ pyRound y := by
  have hfl : ⌊x⌋ ≤ ⌊y⌋ := Int.floor_mono h
  rcases lt_or_eq_of_le hfl with hlt | heq
  · calc pyRound x ≤ ⌊x⌋ + 1 := (pyRound_bounds x).2
      _ ≤ ⌊y⌋ := by omega
      _ ≤ pyRound y := (pyRound_bounds y).1
  · unfold pyRound
    rw [heq]
    split_ifs <;> first | omega | linarith

/-! ### Stats engine (src/api/stats_tracker.py)

The stage catalog `STAGES`, the learned-duration store, `record_job_complete`
and `estimate_remaining` are embedded below.  The on-disk JSON store is the
`Stats` structure; dictionaries are association lists in insertion order. -/

structure Stage where
  num : ℕ
  id : String
  name : String
  icon : String
deriving DecidableEq, Repr

def STAGES : List Stage := [
  ⟨1, "download", "Download", "↓"⟩,
  ⟨2, "extraction", "Extrai Audio", "♪"⟩,
  ⟨3, "transcription", "Transcricao", "✎"⟩,
  ⟨4, "translation", "Traducao", "⇄"⟩,
  ⟨5, "split", "Split", "✂"⟩,
  ⟨6, "tts", "TTS", "🔊"⟩,
  ⟨7, "sync", "Sincronizacao", "⟳"⟩,
  ⟨8, "concat", "Concatenacao", "⊕"⟩,
  ⟨9, "postprocess", "Pos-Processo", "⚙"⟩,
  ⟨10, "mux", "Mux Final", "▶"⟩]

/-- The configuration fields stats_tracker reads via `job_config.get`. -/
structure JobConfig where
  tts_engine : Option String
  translation_engine : Option String
  whisper_model : Option String
deriving DecidableEq, Repr

/-- `f"{tts}_{trans}_{whisper}_{device}"` with the `.get` defaults. -/
def profileKey (c : JobConfig) (device : String) : String :=
  c.tts_engine.getD "edge" ++ "_" ++ c.translation_engine.getD "m2m100" ++ "_"
    ++ c.whisper_model.getD "large-v3" ++ "_" ++ device

/-- One per-stage record in a profile: `{"samples": [...], "avg": ...}`. -/
structure StageEntry where
  samples : List ℚ
  avg : ℚ
deriving DecidableEq, Repr

/-- A profile: dict from stage id to its entry, in insertion order. -/
abbrev Profile := List (String × StageEntry)

structure TotalTimeEntry where
  profile : String
  total : ℚ
  timestamp : ℚ
deriving DecidableEq, Repr

/-- The persistent stats store (`pipeline_stats.json`). -/
structure Stats where
  jobs_completed : ℕ
  stage_times : List (String × Profile)
  total_times : List TotalTimeEntry
deriving DecidableEq, Repr

/-- The store `_load_stats` returns when the file is missing or corrupt. -/
def statsInit : Stats := ⟨0, [], []⟩

/-- Dictionary lookup on an association list (first binding wins). -/
def alget {β : Type} (l : List (String × β)) (k : String) : Option β :=
  (l.find? (fun p => p.1 == k)).map (·.2)

/-- Dictionary update: replace the value at an existing key. -/
def alset {β : Type} (l : List (String × β)) (k : String) (v : β) : List (String × β) :=
  l.map (fun p => if p.1 == k then (p.1, v) else p)

/-- `_tts_default(engine, is_gpu)` from stats_tracker.py. -/
def tts_default (engine : String) (is_gpu : Bool) : ℚ :=
  if engine == "edge" then 120
  else if engine == "bark" then (if is_gpu then 60 else 600)
  else if engine == "xtts" then (if is_gpu then 120 else 900)
  else if engine == "piper" then 30
  else 120

/-- `_default_stage_time(stage_id, config, device)` from stats_tracker.py. -/
def default_stage_time (stage_id : String) (config : JobConfig) (device : String) : ℚ :=
  let is_gpu := device == "cuda"
  let tts := config.tts_engine.getD "edge"
  if stage_id == "download" then 30
  else if stage_id == "extraction" then 5
  else if stage_id == "transcription" then (if is_gpu then 30 else 120)
  else if stage_id == "translation" then
    (if config.translation_engine.getD "m2m100" != "ollama" then 60 else 180)
  else if stage_id == "split" then 5
  else if stage_id == "tts" then tts_default tts is_gpu
  else if stage_id == "sync" then 15
  else if stage_id == "concat" then 10
  else if stage_id == "postprocess" then 10
  else if stage_id == "mux" then 10
  else 30

/-- Status of one stage in the returned `stage_estimates` dict. -/
inductive StageEst where
  | done
  | pending (est_seconds : ℚ)
deriving DecidableEq, Repr

structure Estimate where
  eta_seconds : ℤ
  confidence : String
  stage_estimates : List (String × StageEst)
deriving DecidableEq, Repr

/-- Python truthiness of `avg = profile.get(sid, {}).get("avg")`:
`None` and `0` are falsy. -/
def truthyAvg (x : Option ℚ) : Bool :=
  match x with
  | none => false
  | some a => a != 0

/-- Loop body of `estimate_remaining`: the estimate recorded for one stage
at current stage index `cur` (`done` when `stage["num"] <= current_stage`,
else learned average when truthy, else the static default). -/
def stageEst (profile : Profile) (config : JobConfig) (device : String)
    (cur : ℤ) (st : Stage) : StageEst :=
  if (st.num : ℤ) ≤ cur then .done
  else if truthyAvg ((alget profile st.id).map (·.avg)) then
    .pending (((alget profile st.id).map (·.avg)).getD 0)
  else
    .pending (default_stage_time st.id config device)

/-- Contribution of one stage to the accumulated `remaining`. -/
def stageRemaining (profile : Profile) (config : JobConfig) (device : String)
    (cur : ℤ) (st : Stage) : ℚ :=
  match stageEst profile config device cur st with
  | .done => 0
  | .pending v => v

/-- Loop body of `_default_estimate`. -/
def defaultStageEst (config : JobConfig) (device : String) (cur : ℤ)
    (st : Stage) : StageEst :=
  if (st.num : ℤ) ≤ cur then .done
  else .pending (default_stage_time st.id config device)

def defaultStageRemaining (config : JobConfig) (device : String) (cur : ℤ)
    (st : Stage) : ℚ :=
  match defaultStageEst config device cur st with
  | .done => 0
  | .pending v => v

/-- `_default_estimate(job_config, current_stage, device)`. -/
def default_estimate (config : JobConfig) (current_stage : ℤ) (device : String) : Estimate :=
  { eta_seconds := pyRound ((STAGES.map (defaultStageRemaining config device current_stage)).sum)
    confidence := "low"
    stage_estimates := STAGES.map (fun st => (st.id, defaultStageEst config device current_stage st)) }

/-- `estimate_remaining(job_config, current_stage, stage_elapsed, device)`.
`stage_elapsed` is unused by the source as well.  The `if not profile:`
test sends both a missing and an empty profile to `_default_estimate`. -/
def estimate_remaining (stats : Stats) (job_config : JobConfig)
    (current_stage : ℤ) (device : String) : Estimate :=
  match alget stats.stage_times (profileKey job_config device) with
  | none => default_estimate job_config current_stage device
  | some profile =>
    if profile.isEmpty then default_estimate job_config current_stage device
    else
      { eta_seconds := pyRound ((STAGES.map (stageRemaining profile job_config device current_stage)).sum)
        confidence := if 5 ≤ profile.length then "high" else "medium"
        stage_estimates := STAGES.map (fun st => (st.id, stageEst profile job_config device current_stage st)) }

/-- `if len(samples) > 10: samples.pop(0)` — evict the oldest sample. -/
def evict (l : List ℚ) : List ℚ :=
  if 10 < l.length then l.tail else l

/-- Per-stage mutation in `record_job_complete`: append the rounded
duration, evict the oldest past 10 samples, recompute the rounded mean. -/
def updateEntry (e : StageEntry) (duration : ℚ) : StageEntry :=
  { samples := evict (e.samples ++ [round1 duration])
    avg := round1 ((evict (e.samples ++ [round1 duration])).sum /
      ((evict (e.samples ++ [round1 duration])).length : ℚ)) }

/-- One iteration of the `for stage_id, duration in stage_times.items()`
loop: a missing stage id is first bound to `{"samples": [], "avg": 0}`. -/
def recordStage (profile : Profile) (stage_id : String) (duration : ℚ) : Profile :=
  match alget profile stage_id with
  | some e => alset profile stage_id (updateEntry e duration)
  | none => profile ++ [(stage_id, updateEntry ⟨[], 0⟩ duration)]

/-- Write back a profile under its key, creating the key at the end of the
dict when absent (Python dict insertion order). -/
def setProfile (st : List (String × Profile)) (key : String) (p : Profile) :
    List (String × Profile) :=
  match alget st key with
  | some _ => alset st key p
  | none => st ++ [(key, p)]

/-- `stats["total_times"][-50:]` — cap the history at its 50 newest. -/
def capTT (l : List TotalTimeEntry) : List TotalTimeEntry :=
  if 50 < l.length then l.drop (l.length - 50) else l

/-- `record_job_complete(job_config, stage_times, total_time, device)`;
`now` stands for `time.time()`. -/
def record_job_complete (stats : Stats) (job_config : JobConfig)
    (stage_times : List (String × ℚ)) (total_time : ℚ) (device : String)
    (now : ℚ) : Stats :=
  { jobs_completed := stats.jobs_completed + 1
    stage_times := setProfile stats.stage_times (profileKey job_config device)
      (stage_times.foldl (fun p sd => recordStage p sd.1 sd.2)
        ((alget stats.stage_times (profileKey job_config device)).getD []))
    total_times := capTT (stats.total_times ++
      [⟨profileKey job_config device, round1 total_time, now⟩]) }

/-! ### Job progress (src/api/job_manager.py, `Job._calc_progress`) -/

/-- The stage list hard-coded in `Job._calc_progress` (note `fade`, and no
`postprocess`, unlike the `STAGES` catalog of stats_tracker.py). -/
def progressStages : List String :=
  ["download", "extraction", "transcription", "translation",
   "split", "tts", "fade", "sync", "concat", "mux"]

/-- Python list subscripting `l[i]`, including negative indices;
`none` models an `IndexError`. -/
def pyIndex (l : List String) (i : ℤ) : Option String :=
  if 0 ≤ i ∧ i < l.length then l.get? i.toNat
  else if -(l.length : ℤ) ≤ i ∧ i < 0 then l.get? (l.length + i).toNat
  else none

structure ProgressInfo where
  current_stage : ℤ
  total_stages : ℕ
  percent : ℤ
  stage_name : String
deriving DecidableEq, Repr

/-- `Job._calc_progress(checkpoint)` given `last_step = checkpoint.get("last_step_num", 0)`.
`none` models the `IndexError` raised by `stages[last_step]` when
`last_step < -len(stages)`. -/
def calc_progress (last_step : ℤ) : Option ProgressInfo :=
  (if last_step < (progressStages.length : ℤ) then pyIndex progressStages last_step
   else some "completed").map
    (fun nm =>
      { current_stage := last_step
        total_stages := progressStages.length
        percent := pyRound ((last_step : ℚ) / (progressStages.length : ℚ) * 100)
        stage_name := nm })

/-! ### Run outcome (src/api/job_manager.py, `JobManager._run_job`)

`_run_job` marks the job running, spawns and polls the process, and on exit
(or on an exception anywhere in the `try`) sets the terminal state.  The exit
phase, lines 162-176, is embedded as a function of the outcome. -/

def SIGTERM : ℤ := 15
def SIGKILL : ℤ := 9

/-- How the supervised run ended: the process exited with a code, or an
exception (with its text) was raised during spawn/monitoring. -/
inductive RunOutcome where
  | exited (code : ℤ)
  | raised (msg : String)
deriving DecidableEq, Repr

/-- The mutable Job fields `_run_job`'s exit phase touches. -/
structure JobRec where
  status : String
  error : Option String
  started_at : Option ℚ
  finished_at : Option ℚ
deriving DecidableEq, Repr

/-- Lines 162-176 of job_manager.py: status, error and `finished_at`
after the process exits, or after an exception at time `now`. -/
def run_job_exit (j : JobRec) (now : ℚ) (o : RunOutcome) : JobRec :=
  match o with
  | .exited code =>
    if code = 0 then
      { j with finished_at := some now, status := "completed" }
    else if code = -SIGTERM ∨ code = -SIGKILL then
      { j with finished_at := some now, status := "cancelled" }
    else
      { j with finished_at := some now, status := "failed",
               error := some ("Exit code: " ++ toString code) }
  | .raised msg =>
    { j with status := "failed", error := some msg, finished_at := some now }

/-! ### Cancellation (src/api/job_manager.py, `JobManager.cancel_job`)

A job's process handle: `none` when `job.process is None`, `some true`
when `poll() is None` (alive), `some false` when it has exited. -/

structure CJob where
  status : String
  finished_at : Option ℚ
  procAlive : Option Bool
deriving DecidableEq, Repr

/-- `cancel_job(job_id)` acting on the looked-up job (`none` when the id is
not in the registry).  `exits_in_10s` records whether `process.wait(timeout=10)`
returned before the timeout (graceful path) or `kill()` was needed; the
code after the `try/except` is common to both paths. -/
def cancel_job (job? : Option CJob) (now : ℚ) (exits_in_10s : Bool) :
    Bool × Option CJob :=
  match job? with
  | none => (false, none)
  | some job =>
    if job.procAlive = some true then
      -- terminate(); wait(timeout=10) / TimeoutExpired -> kill()
      let _ := exits_in_10s
      (true, some { job with status := "cancelled", finished_at := some now,
                             procAlive := some false })
    else (false, some job)

/-! ### Notification hub (src/api/job_manager.py, `_notify`/`unsubscribe`)

Sinks (websocket handles) are identified by naturals; `ok ws` says
whether `ws.send_json(data)` succeeds for this publish. -/

/-- `unsubscribe(job_id, ws)` on one job id's subscriber list. -/
def unsubscribeWS (subs : List ℕ) (w : ℕ) : List ℕ :=
  subs.filter (fun x => x != w)

/-- The `dead` list `_notify` accumulates: subscribers whose send raised. -/
def notifyDead (subs : List ℕ) (ok : ℕ → Bool) : List ℕ :=
  subs.filter (fun w => !ok w)

/-- `_notify(job_id, data)` on one job id's subscriber list: first
component is the list of sinks the event was delivered to (sends that
succeeded, in order); second is the subscriber list after the dead sinks
are unsubscribed. -/
def notify (subs : List ℕ) (ok : ℕ → Bool) : List ℕ × List ℕ :=
  (subs.filter ok, (notifyDead subs ok).foldl unsubscribeWS subs)

/-! ### Deletion (src/api/server.py, delete endpoint)

server.py line 756 calls `job_manager.delete_job(job_id)`, but no
`delete_job` method exists in src/api/job_manager.py. -/

/-- Modelled from the spec: `JobManager.delete_job`, absent from the
sources (only its caller in server.py exists).  Per §4.1, "`delete(id)
-> bool` (removes Job and its on-disk artifacts; fails if running —
caller must cancel first)".  `jobs` maps id to status, `disk` is the set
of job ids owning on-disk artifacts. -/
def delete_job (jobs : List (String × String)) (disk : List String)
    (id : String) : Bool × List (String × String) × List String :=
  match alget jobs id with
  | none => (false, jobs, disk)
  | some st =>
    if st = "running" then (false, jobs, disk)
    else (true, jobs.filter (fun p => p.1 != id), disk.filter (fun d => d != id))

/-! ### Scheduler transition system (src/api/job_manager.py)

The registry/queue/worker of `JobManager` as a labelled transition system
over asyncio interleavings.  Atomic steps:

* `submit` — `create_job`: a fresh id is registered `queued` and enqueued;
* `dequeueRun` — the single `_worker` loop dequeues an id whose job is
  still `queued` and `_run_job` marks it `running` (the worker stays busy
  with this id until `_run_job` returns);
* `dequeueSkip` — the worker dequeues an id whose job is missing or no
  longer `queued` and skips it;
* `finish` — `_run_job` returns, having set a terminal status (every path
  of its try/except sets `completed`, `failed` or `cancelled`);
* `cancel` — `cancel_job` on a job whose process is alive (such a job has
  status `running`; the abstraction lets cancel hit any running job) sets
  `cancelled`;
* `delete` — `delete_job` (spec-modelled above) removes a non-running job.
-/

structure MState where
  jobs : List (String × String)
  queue : List String
  current : Option String
deriving DecidableEq, Repr

def initState : MState := ⟨[], [], none⟩

/-- Statuses `_run_job` can leave a job with when it returns. -/
def terminalStatus (st : String) : Prop :=
  st = "completed" ∨ st = "failed" ∨ st = "cancelled"

inductive Step : MState → MState → Prop where
  | submit (s : MState) (id : String) (hfresh : alget s.jobs id = none) :
      Step s ⟨s.jobs ++ [(id, "queued")], s.queue ++ [id], s.current⟩
  | dequeueRun (s : MState) (id : String) (rest : List String)
      (hq : s.queue = id :: rest) (hidle : s.current = none)
      (hst : alget s.jobs id = some "queued") :
      Step s ⟨alset s.jobs id "running", rest, some id⟩
  | dequeueSkip (s : MState) (id : String) (rest : List String)
      (hq : s.queue = id :: rest) (hidle : s.current = none)
      (hst : alget s.jobs id ≠ some "queued") :
      Step s ⟨s.jobs, rest, none⟩
  | finish (s : MState) (id : String) (st : String)
      (hcur : s.current = some id) (hterm : terminalStatus st) :
      Step s ⟨alset s.jobs id st, s.queue, none⟩
  | cancel (s : MState) (id : String)
      (hrun : alget s.jobs id = some "running") :
      Step s ⟨alset s.jobs id "cancelled", s.queue, s.current⟩
  | delete (s : MState) (id : String) (st : String)
      (hst : alget s.jobs id = some st) (hnr : st ≠ "running") :
      Step s ⟨s.jobs.filter (fun p => p.1 != id), s.queue, s.current⟩

inductive Reachable : MState → Prop where
  | init : Reachable initState
  | step {s t : MState} : Reachable s → Step s t → Reachable t

/-- Number of jobs in the registry whose status is `running`. -/
def countRunning (jobs : List (String × String)) : ℕ :=
  jobs.countP (fun p => p.2 == "running")

/-! ## Theorems -/

/-- C1: for every supervised job run, the terminal state after the process
exits is determined by the outcome: exit code 0 gives status `completed`;
termination by the supervisor's cancellation signals (SIGTERM, and SIGKILL
for the force-kill path) gives `cancelled`; any other non-zero code gives
`failed` with error `"Exit code: <n>"`; an exception during spawn/monitor
gives `failed` with the exception text; `finished_at` is set in every
case. -/
theorem run_job_exit_spec (j : JobRec) (now : ℚ) (o : RunOutcome) :
    (run_job_exit j now o).finished_at = some now ∧
    (run_job_exit j now (.exited 0)).status = "completed" ∧
    ((run_job_exit j now (.exited (-SIGTERM))).status = "cancelled" ∧
      (run_job_exit j now (.exited (-SIGKILL))).status = "cancelled") ∧
    (∀ c : ℤ, c ≠ 0 → c ≠ -SIGTERM → c ≠ -SIGKILL →
      (run_job_exit j now (.exited c)).status = "failed" ∧
      (run_job_exit j now (.exited c)).error = some ("Exit code: " ++ toString c)) ∧
    (∀ m : String, (run_job_exit j now (.raised m)).status = "failed" ∧
      (run_job_exit j now (.raised m)).error = some m) := by
  refine ⟨?_, ?_, ⟨?_, ?_⟩, ?_, ?_⟩
  · cases o with
    | exited code =>
      simp only [run_job_exit]
      split_ifs <;> rfl
    | raised msg => rfl
  · rfl
  · rfl
  · rfl
  · intro c hc h1 h2
    have hor : ¬(c = -SIGTERM ∨ c = -SIGKILL) := by tauto
    simp [run_job_exit, hc, hor]
  · intro m
    exact ⟨rfl, rfl⟩

theorem run_job_exit_spec_witness :
    (run_job_exit ⟨"running", none, some 0, none⟩ 5 (.exited 3)).status = "failed" ∧
    (run_job_exit ⟨"running", none, some 0, none⟩ 5 (.exited 3)).error =
      some ("Exit code: " ++ toString (3 : ℤ)) :=
  (run_job_exit_spec ⟨"running", none, some 0, none⟩ 5 (.exited 3)).2.2.2.1 3
    (by decide) (by decide) (by decide)

/-- C3: cancelling a job whose process is alive terminates it (gracefully or,
after the 10-second wait expires, by force-kill), sets status `cancelled`
with `finished_at`, and returns success, identically for both termination
paths; cancelling a job with no live process (never spawned, or already
exited) returns `false` and leaves the job unchanged. -/
theorem cancel_job_spec (job : CJob) (now : ℚ) (b b' : Bool) :
    (job.procAlive = some true →
      cancel_job (some job) now b =
        (true, some { job with status := "cancelled", finished_at := some now,
                               procAlive := some false }) ∧
      cancel_job (some job) now b = cancel_job (some job) now b') ∧
    (job.procAlive ≠ some true →
      cancel_job (some job) now b = (false, some job)) ∧
    cancel_job none now b = (false, none) := by
  refine ⟨fun h => ⟨?_, ?_⟩, fun h => ?_, rfl⟩
  · simp [cancel_job, h]
  · simp [cancel_job, h]
  · simp [cancel_job, h]

theorem cancel_job_spec_witness :
    cancel_job (some ⟨"running", none, some true⟩) 5 false =
      (true, some ⟨"cancelled", some 5, some false⟩) :=
  ((cancel_job_spec ⟨"running", none, some true⟩ 5 false true).1 rfl).1

/-- The registry after deletion no longer binds the deleted key. -/
theorem alget_filter_ne {β : Type} (l : List (String × β)) (k : String) :
    alget (l.filter (fun p => p.1 != k)) k = none := by
  have h : (l.filter (fun p => p.1 != k)).find? (fun p => p.1 == k) = none := by
    rw [List.find?_eq_none]
    intro x hx
    have hne := (List.mem_filter.mp hx).2
    simp only [bne_iff_ne, ne_eq] at hne
    simp [hne]
  simp [alget, h]

/-- C4 (spec-modelled, `delete_job` is absent from src): delete returns a
boolean; on a running job it fails and leaves registry and artifacts in
place; on any registered non-running job it succeeds and removes the job
from the registry together with its on-disk artifacts. -/
theorem delete_job_spec (jobs : List (String × String)) (disk : List String)
    (id : String) :
    (alget jobs id = some "running" →
      delete_job jobs disk id = (false, jobs, disk)) ∧
    (∀ st, alget jobs id = some st → st ≠ "running" →
      delete_job jobs disk id =
        (true, jobs.filter (fun p => p.1 != id), disk.filter (fun d => d != id)) ∧
      alget (delete_job jobs disk id).2.1 id = none ∧
      id ∉ (delete_job jobs disk id).2.2) := by
  constructor
  · intro h
    simp [delete_job, h]
  · intro st hst hnr
    have hd : delete_job jobs disk id =
        (true, jobs.filter (fun p => p.1 != id), disk.filter (fun d => d != id)) := by
      simp [delete_job, hst, hnr]
    refine ⟨hd, ?_, ?_⟩
    · rw [hd]
      exact alget_filter_ne jobs id
    · rw [hd]
      simp

theorem delete_job_spec_witness :
    delete_job [("a", "running"), ("b", "completed")] ["a", "b"] "b" =
      (true, [("a", "running")], ["a"]) ∧
    delete_job [("a", "running"), ("b", "completed")] ["a", "b"] "a" =
      (false, [("a", "running"), ("b", "completed")], ["a", "b"]) :=
  ⟨by
    have h := (delete_job_spec [("a", "running"), ("b", "completed")] ["a", "b"] "b").2
      "completed" (by decide) (by decide)
    simpa using h.1,
   (delete_job_spec [("a", "running"), ("b", "completed")] ["a", "b"] "a").1 (by decide)⟩

/-- Folding `unsubscribe` over the dead list removes exactly the dead. -/
theorem foldl_unsubscribeWS (dead acc : List ℕ) :
    dead.foldl unsubscribeWS acc = acc.filter (fun x => !dead.contains x) := by
  induction dead generalizing acc with
  | nil => simp [List.filter_eq_self]
  | cons d ds ih =>
    rw [List.foldl_cons, ih]
    unfold unsubscribeWS
    rw [List.filter_filter]
    apply List.filter_congr
    intro x _
    by_cases hxd : x = d <;> simp [hxd, List.contains_cons]

/-- After `_notify`, the subscriber list is exactly the sinks whose send
succeeded. -/
theorem notify_subs_eq (subs : List ℕ) (ok : ℕ → Bool) :
    (notify subs ok).2 = subs.filter ok := by
  show (notifyDead subs ok).foldl unsubscribeWS subs = subs.filter ok
  rw [foldl_unsubscribeWS]
  apply List.filter_congr
  intro x hx
  unfold notifyDead
  cases h : ok x <;> simp [List.contains, List.elem_eq_mem, List.mem_filter, hx, h]

/-- C9: publishing to a job id delivers the event to every currently
subscribed sink whose send succeeds, silently removes every sink whose
delivery fails from that job id's subscriber set, and reports no error to
the publisher (the function is total and returns the pruned set). -/
theorem notify_best_effort (subs : List ℕ) (ok : ℕ → Bool) (w : ℕ)
    (hw : w ∈ subs) :
    (ok w = false → w ∉ (notify subs ok).2) ∧
    (ok w = true → w ∈ (notify subs ok).1) ∧
    (notify subs ok).2 = subs.filter ok := by
  refine ⟨?_, ?_, notify_subs_eq subs ok⟩
  · intro hfail
    rw [notify_subs_eq]
    simp [List.mem_filter, hfail]
  · intro hok
    show w ∈ subs.filter ok
    simp [List.mem_filter, hw, hok]

theorem notify_best_effort_witness :
    (2 ∉ (notify [1, 2, 3] (fun x => x != 2)).2) ∧
    (1 ∈ (notify [1, 2, 3] (fun x => x != 2)).1) ∧
    (notify [1, 2, 3] (fun x => x != 2)).2 = [1, 3] := by
  refine ⟨(notify_best_effort [1, 2, 3] (fun x => x != 2) 2 (by decide)).1 (by decide),
    (notify_best_effort [1, 2, 3] (fun x => x != 2) 1 (by decide)).2.1 (by decide), by decide⟩

/-- Helper: a valid index into the catalog. -/
theorem get?_eq_some_getD (l : List String) (n : ℕ) (h : n < l.length) :
    l.get? n = some (l.getD n "") := by
  rw [List.getD_eq_getElem?_getD, List.get?_eq_getElem?, List.getElem?_eq_getElem h]
  rfl

/-- Case analysis of `_calc_progress` over all integer stage indices. -/
theorem calc_progress_cases (i : ℤ) :
    ((10 : ℤ) ≤ i → calc_progress i = some ⟨i, 10, 10 * i, "completed"⟩) ∧
    (0 ≤ i → i < 10 →
      calc_progress i = some ⟨i, 10, 10 * i, progressStages.getD i.toNat ""⟩) ∧
    ((-10 : ℤ) ≤ i → i < 0 →
      calc_progress i = some ⟨i, 10, 10 * i, progressStages.getD (10 + i).toNat ""⟩) ∧
    (i < -10 → calc_progress i = none) := by
  have hpct : pyRound ((i : ℚ) / (10 : ℚ) * 100) = 10 * i := by
    have h10 : ((i : ℚ) / (10 : ℚ) * 100) = ((10 * i : ℤ) : ℚ) := by
      push_cast
      ring
    rw [h10, pyRound_intCast]
  have hlen : progressStages.length = 10 := rfl
  refine ⟨fun h => ?_, fun h0 h10 => ?_, fun hm h0 => ?_, fun h => ?_⟩ <;>
      unfold calc_progress pyIndex <;>
      simp only [hlen, Nat.cast_ofNat]
  · rw [if_neg (by omega)]
    simp [hpct]
  · rw [if_pos (by omega), if_pos ⟨by omega, by omega⟩]
    rw [get?_eq_some_getD _ _ (by rw [hlen]; omega)]
    simp [hpct, hlen]
  · rw [if_pos (by omega), if_neg (by omega), if_pos ⟨by omega, by omega⟩]
    rw [get?_eq_some_getD _ _ (by rw [hlen]; omega)]
    simp [hpct, hlen]
  · rw [if_pos (by omega), if_neg (by omega), if_neg (by omega)]
    rfl

/-- C5 counterexample: the progress catalog actually used by
`_calc_progress` has `fade` (not `sync`) at index 6 and no `postprocess`
stage; and a negative stage index is not clamped to zero — Python indexing
selects from the end of the list with a negative percent. -/
theorem calc_progress_claim_false :
    calc_progress 6 = some ⟨6, 10, 60, "fade"⟩ ∧ "fade" ≠ "sync" ∧
    "postprocess" ∉ progressStages ∧
    calc_progress (-1) = some ⟨-1, 10, -10, "mux"⟩ ∧
    ((-10 : ℤ) ≠ 0 ∧ "mux" ≠ "download") := by
  refine ⟨?_, by decide, by decide, ?_, by decide, by decide⟩
  · rw [(calc_progress_cases 6).2.1 (by decide) (by decide)]
    rfl
  · rw [(calc_progress_cases (-1)).2.2.1 (by decide) (by decide)]
    rfl

/-- C5 amended: over the catalog actually in the code (`download,
extraction, transcription, translation, split, tts, fade, sync, concat,
mux`), progress is `percent = round(i/10*100) = 10*i` and `stage_name` is
the catalog entry at index `i`, or `"completed"` for `i ≥ 10`; negative
indices are not clamped: for `-10 ≤ i < 0` Python indexing yields the
entry at position `10+i` (and a negative percent), and `i < -10` raises
an IndexError. -/
theorem calc_progress_amended (i : ℤ) :
    ((10 : ℤ) ≤ i → calc_progress i = some ⟨i, 10, 10 * i, "completed"⟩) ∧
    (0 ≤ i → i < 10 →
      calc_progress i = some ⟨i, 10, 10 * i, progressStages.getD i.toNat ""⟩) ∧
    ((-10 : ℤ) ≤ i → i < 0 →
      calc_progress i = some ⟨i, 10, 10 * i, progressStages.getD (10 + i).toNat ""⟩) ∧
    (i < -10 → calc_progress i = none) :=
  calc_progress_cases i

theorem calc_progress_amended_witness :
    calc_progress 3 = some ⟨3, 10, 30, "translation"⟩ ∧
    calc_progress (-2) = some ⟨-2, 10, -20, "concat"⟩ ∧
    calc_progress 11 = some ⟨11, 10, 110, "completed"⟩ ∧
    calc_progress (-11) = none := by
  refine ⟨?_, ?_, ?_, (calc_progress_amended (-11)).2.2.2 (by decide)⟩
  · rw [(calc_progress_amended 3).2.1 (by decide) (by decide)]
    rfl
  · rw [(calc_progress_amended (-2)).2.2.1 (by decide) (by decide)]
    rfl
  · rw [(calc_progress_amended 11).1 (by decide)]
    rfl

/-- C8 counterexample: a profile for the key can exist yet be empty (here
produced by `record_job_complete` with an empty stage-duration dict, as the
code itself would); it has learned data for 0 < 5 stages, yet the returned
confidence is `low`, not `medium`. -/
theorem confidence_claim_false :
    alget (record_job_complete statsInit ⟨none, none, none⟩ [] 100 "cpu" 0).stage_times
        "edge_m2m100_large-v3_cpu" = some [] ∧
    ([] : Profile).length < 5 ∧
    (estimate_remaining (record_job_complete statsInit ⟨none, none, none⟩ [] 100 "cpu" 0)
        ⟨none, none, none⟩ 0 "cpu").confidence = "low" ∧
    "low" ≠ "medium" := by
  refine ⟨?_, by decide, ?_, by decide⟩ <;> rfl

/-- C8 amended: confidence is `high` exactly when the matched profile is
nonempty with learned data for at least 5 stages, `medium` when a nonempty
profile has fewer than 5, and `low` when no profile exists for the key or
the existing profile is empty (both fall to pure defaults). -/
theorem confidence_amended (stats : Stats) (cfg : JobConfig) (cur : ℤ)
    (device : String) :
    (estimate_remaining stats cfg cur device).confidence =
      match alget stats.stage_times (profileKey cfg device) with
      | none => "low"
      | some p => if p.isEmpty then "low"
                  else if 5 ≤ p.length then "high" else "medium" := by
  unfold estimate_remaining
  cases h : alget stats.stage_times (profileKey cfg device) with
  | none => rfl
  | some p =>
    by_cases hp : p.isEmpty <;> simp [hp, default_estimate]

/-- C10: a pending stage whose stored learned average is 0 is estimated
with the static per-stage default, exactly as a stage with no learned
entry at all — a zero average is indistinguishable from missing data. -/
theorem zero_avg_uses_default (stats : Stats) (cfg : JobConfig) (cur : ℤ)
    (device : String) (profile : Profile) (st : Stage) (e : StageEntry)
    (hp : alget stats.stage_times (profileKey cfg device) = some profile)
    (hne : profile.isEmpty = false)
    (hst : st ∈ STAGES) (hcur : cur < (st.num : ℤ))
    (he : alget profile st.id = some e) (havg : e.avg = 0) :
    stageEst profile cfg device cur st =
      .pending (default_stage_time st.id cfg device) ∧
    (st.id, StageEst.pending (default_stage_time st.id cfg device)) ∈
      (estimate_remaining stats cfg cur device).stage_estimates ∧
    (∀ p2 : Profile, alget p2 st.id = none →
      stageEst p2 cfg device cur st = stageEst profile cfg device cur st) := by
  have h1 : stageEst profile cfg device cur st =
      .pending (default_stage_time st.id cfg device) := by
    unfold stageEst
    rw [if_neg (by omega)]
    simp [he, truthyAvg, havg]
  refine ⟨h1, ?_, ?_⟩
  · unfold estimate_remaining
    rw [hp]
    simp only [hne, Bool.false_eq_true, if_false]
    exact List.mem_map.mpr ⟨st, hst, by rw [h1]⟩
  · intro p2 hp2
    rw [h1]
    unfold stageEst
    rw [if_neg (by omega)]
    simp [hp2, truthyAvg]

theorem zero_avg_uses_default_witness :
    stageEst [("download", ⟨[0], 0⟩)] ⟨none, none, none⟩ "cpu" 0
        ⟨1, "download", "Download", "↓"⟩ =
      .pending (default_stage_time "download" ⟨none, none, none⟩ "cpu") ∧
    ("download",
      StageEst.pending (default_stage_time "download" ⟨none, none, none⟩ "cpu")) ∈
      (estimate_remaining
        ⟨1, [("edge_m2m100_large-v3_cpu", [("download", ⟨[0], 0⟩)])], []⟩
        ⟨none, none, none⟩ 0 "cpu").stage_estimates :=
  ⟨(zero_avg_uses_default
      ⟨1, [("edge_m2m100_large-v3_cpu", [("download", ⟨[0], 0⟩)])], []⟩
      ⟨none, none, none⟩ 0 "cpu" [("download", ⟨[0], 0⟩)]
      ⟨1, "download", "Download", "↓"⟩ ⟨[0], 0⟩
      rfl rfl (by decide) (by decide) rfl rfl).1,
   (zero_avg_uses_default
      ⟨1, [("edge_m2m100_large-v3_cpu", [("download", ⟨[0], 0⟩)])], []⟩
      ⟨none, none, none⟩ 0 "cpu" [("download", ⟨[0], 0⟩)]
      ⟨1, "download", "Download", "↓"⟩ ⟨[0], 0⟩
      rfl rfl (by decide) (by decide) rfl rfl).2.1⟩

/-- A stage at or before the current index contributes nothing. -/
theorem stageRemaining_done {profile : Profile} {cfg : JobConfig}
    {device : String} {cur : ℤ} {st : Stage} (h : (st.num : ℤ) ≤ cur) :
    stageRemaining profile cfg device cur st = 0 := by
  unfold stageRemaining stageEst
  rw [if_pos h]

/-- A pending stage with a positive learned average contributes it. -/
theorem stageRemaining_of_pos {profile : Profile} {cfg : JobConfig}
    {device : String} {cur : ℤ} {st : Stage} {e : StageEntry}
    (h : ¬(st.num : ℤ) ≤ cur) (he : alget profile st.id = some e)
    (hpos : 0 < e.avg) :
    stageRemaining profile cfg device cur st = e.avg := by
  unfold stageRemaining stageEst
  rw [if_neg h]
  have ht : truthyAvg ((alget profile st.id).map (·.avg)) = true := by
    simp [he, truthyAvg, bne_iff_ne]
    exact hpos.ne'
  rw [if_pos ht]
  simp [he]

/-- C7: with a fully learned profile (a positive learned average for every
catalog stage), the `eta_seconds` returned by `estimate_remaining` at stage
index `k` is at least the value returned at stage index `k+1`. -/
theorem estimate_eta_antitone (stats : Stats) (cfg : JobConfig)
    (device : String) (k : ℤ) (profile : Profile)
    (hp : alget stats.stage_times (profileKey cfg device) = some profile)
    (hfull : ∀ st ∈ STAGES, ∃ e, alget profile st.id = some e ∧ 0 < e.avg) :
    (estimate_remaining stats cfg (k + 1) device).eta_seconds ≤
      (estimate_remaining stats cfg k device).eta_seconds := by
  have hne : profile.isEmpty = false := by
    rcases hfull ⟨1, "download", "Download", "↓"⟩ (by decide) with ⟨e, he, _⟩
    cases profile with
    | nil => simp [alget] at he
    | cons a l => rfl
  unfold estimate_remaining
  rw [hp]
  simp only [hne, Bool.false_eq_true, if_false]
  apply pyRound_mono
  apply List.sum_le_sum
  intro st hst
  rcases hfull st hst with ⟨e, he, hpos⟩
  by_cases h1 : (st.num : ℤ) ≤ k
  · rw [stageRemaining_done h1, stageRemaining_done (by omega)]
  · by_cases h2 : (st.num : ℤ) ≤ k + 1
    · rw [stageRemaining_done h2, stageRemaining_of_pos h1 he hpos]
      exact le_of_lt hpos
    · rw [stageRemaining_of_pos h1 he hpos, stageRemaining_of_pos h2 he hpos]

theorem estimate_eta_antitone_witness :
    (estimate_remaining
        ⟨1, [("edge_m2m100_large-v3_cpu",
          [("download", ⟨[1], 1⟩), ("extraction", ⟨[1], 1⟩),
           ("transcription", ⟨[1], 1⟩), ("translation", ⟨[1], 1⟩),
           ("split", ⟨[1], 1⟩), ("tts", ⟨[1], 1⟩), ("sync", ⟨[1], 1⟩),
           ("concat", ⟨[1], 1⟩), ("postprocess", ⟨[1], 1⟩),
           ("mux", ⟨[1], 1⟩)])], []⟩
        ⟨none, none, none⟩ (3 + 1) "cpu").eta_seconds ≤
      (estimate_remaining
        ⟨1, [("edge_m2m100_large-v3_cpu",
          [("download", ⟨[1], 1⟩), ("extraction", ⟨[1], 1⟩),
           ("transcription", ⟨[1], 1⟩), ("translation", ⟨[1], 1⟩),
           ("split", ⟨[1], 1⟩), ("tts", ⟨[1], 1⟩), ("sync", ⟨[1], 1⟩),
           ("concat", ⟨[1], 1⟩), ("postprocess", ⟨[1], 1⟩),
           ("mux", ⟨[1], 1⟩)])], []⟩
        ⟨none, none, none⟩ 3 "cpu").eta_seconds :=
  estimate_eta_antitone _ ⟨none, none, none⟩ "cpu" 3
    [("download", ⟨[1], 1⟩), ("extraction", ⟨[1], 1⟩),
     ("transcription", ⟨[1], 1⟩), ("translation", ⟨[1], 1⟩),
     ("split", ⟨[1], 1⟩), ("tts", ⟨[1], 1⟩), ("sync", ⟨[1], 1⟩),
     ("concat", ⟨[1], 1⟩), ("postprocess", ⟨[1], 1⟩), ("mux", ⟨[1], 1⟩)]
    rfl
    (by intro st hst; fin_cases hst <;> exact ⟨⟨[1], 1⟩, rfl, by norm_num⟩)

/-! ### The bounded sample window (C6) -/

/-- Evaluation of `pyRound` below the rounding boundary. -/
theorem pyRound_eval_lt {x : ℚ} {n : ℤ} (hfl : ⌊x⌋ = n)
    (hr : x - (n : ℚ) < 1/2) : pyRound x = n := by
  unfold pyRound
  rw [hfl, if_pos hr]

/-- The sample window after all recorded durations `ds`: the roundings of
the `min ds.length 10` most recent durations. -/
def windowOf (ds : List ℚ) : List ℚ :=
  (ds.map round1).drop (ds.length - 10)

theorem tail_append_singleton {l : List ℚ} (x : ℚ) (h : l ≠ []) :
    (l ++ [x]).tail = l.tail ++ [x] := by
  cases l with
  | nil => exact absurd rfl h
  | cons a as => rfl

/-- Appending one sample and evicting past 10 advances the window. -/
theorem windowOf_append (ds : List ℚ) (d : ℚ) :
    evict (windowOf ds ++ [round1 d]) = windowOf (ds ++ [d]) := by
  have hlm : (ds.map round1).length = ds.length := List.length_map ds round1
  have hwl : (windowOf ds).length = ds.length - (ds.length - 10) := by
    unfold windowOf
    rw [List.length_drop, hlm]
  have hcond : (windowOf ds ++ [round1 d]).length =
      ds.length - (ds.length - 10) + 1 := by
    rw [List.length_append, hwl]
    rfl
  have hR : windowOf (ds ++ [d]) =
      (ds.map round1 ++ [round1 d]).drop (ds.length + 1 - 10) := by
    unfold windowOf
    simp only [List.map_append, List.map_cons, List.map_nil,
      List.length_append, List.length_cons, List.length_nil]
  unfold evict
  by_cases h : ds.length < 10
  · rw [if_neg (by rw [hcond]; omega)]
    rw [hR, show ds.length + 1 - 10 = 0 from by omega]
    unfold windowOf
    rw [show ds.length - 10 = 0 from by omega]
    simp
  · rw [if_pos (by rw [hcond]; omega)]
    rw [hR]
    have hne2 : windowOf ds ≠ [] := by
      intro h0
      have hl0 := congrArg List.length h0
      rw [hwl] at hl0
      simp at hl0
      omega
    rw [tail_append_singleton _ hne2]
    unfold windowOf
    rw [List.tail_drop]
    rw [List.drop_append_of_le_length (by rw [hlm]; omega)]
    rw [show ds.length - 10 + 1 = ds.length + 1 - 10 from by omega]

/-- One `record_job_complete` call on the store as it looks mid-loop for a
fixed profile and single stage id. -/
theorem record_step (cfg : JobConfig) (device sid : String) (now d : ℚ)
    (n : ℕ) (e : StageEntry) (tt : List TotalTimeEntry) :
    record_job_complete ⟨n, [(profileKey cfg device, [(sid, e)])], tt⟩ cfg
        [(sid, d)] d device now =
      ⟨n + 1, [(profileKey cfg device, [(sid, updateEntry e d)])],
        capTT (tt ++ [⟨profileKey cfg device, round1 d, now⟩])⟩ := by
  unfold record_job_complete recordStage setProfile alget alset
  simp

/-- The first `record_job_complete` call on the empty store. -/
theorem record_base (cfg : JobConfig) (device sid : String) (now d : ℚ) :
    record_job_complete statsInit cfg [(sid, d)] d device now =
      ⟨1, [(profileKey cfg device, [(sid, updateEntry ⟨[], 0⟩ d)])],
        [⟨profileKey cfg device, round1 d, now⟩]⟩ := by
  unfold record_job_complete recordStage setProfile alget statsInit capTT
  simp

/-- Shape of the store after iterating single-stage records over `ds`. -/
theorem record_loop (cfg : JobConfig) (device sid : String) (now : ℚ)
    (ds : List ℚ) (hne : ds ≠ []) :
    ∃ tt : List TotalTimeEntry,
      ds.foldl (fun s d => record_job_complete s cfg [(sid, d)] d device now)
          statsInit =
        ⟨ds.length,
         [(profileKey cfg device,
           [(sid, ⟨windowOf ds,
             round1 ((windowOf ds).sum / ((windowOf ds).length : ℚ))⟩)])],
         tt⟩ ∧
      tt.length = min ds.length 50 := by
  induction ds using List.reverseRecOn with
  | nil => exact absurd rfl hne
  | append_singleton ds d ih =>
    rw [List.foldl_append]
    by_cases hds : ds = []
    · subst hds
      simp only [List.nil_append, List.foldl_nil, List.foldl_cons,
        List.length_cons, List.length_nil]
      refine ⟨[⟨profileKey cfg device, round1 d, now⟩], ?_, by simp⟩
      rw [record_base]
      have hw : windowOf [d] = [round1 d] := by
        unfold windowOf
        simp
      have hue : updateEntry ⟨[], 0⟩ d =
          ⟨windowOf [d], round1 ((windowOf [d]).sum / ((windowOf [d]).length : ℚ))⟩ := by
        unfold updateEntry evict
        rw [hw]
        simp
      rw [hue]
    · rcases ih hds with ⟨tt, hfold, htt⟩
      rw [hfold]
      simp only [List.foldl_cons, List.foldl_nil]
      rw [record_step]
      have hue : updateEntry
          ⟨windowOf ds, round1 ((windowOf ds).sum / ((windowOf ds).length : ℚ))⟩ d =
          ⟨windowOf (ds ++ [d]),
            round1 ((windowOf (ds ++ [d])).sum / ((windowOf (ds ++ [d])).length : ℚ))⟩ := by
        unfold updateEntry
        rw [windowOf_append]
      rw [hue]
      refine ⟨capTT (tt ++ [⟨profileKey cfg device, round1 d, now⟩]), ?_, ?_⟩
      · rw [show (ds ++ [d]).length = ds.length + 1 by simp]
      · unfold capTT
        by_cases hc : 50 < tt.length + 1
        · rw [if_pos (by simp only [List.length_append, List.length_cons,
            List.length_nil]; omega), List.length_drop]
          simp only [List.length_append, List.length_cons, List.length_nil]
          omega
        · rw [if_neg (by simp only [List.length_append, List.length_cons,
            List.length_nil]; omega)]
          simp only [List.length_append, List.length_cons, List.length_nil]
          omega

/-- C6 counterexample: after recording durations 1, 2, 1 for one
profile/stage, the stored samples are [1, 2, 1] and the stored avg is
1.3 = round(4/3, 1), which is not the arithmetic mean 4/3 of the stored
samples — the avg is the mean rounded to one decimal, not the mean. -/
theorem record_avg_claim_false :
    alget ((alget (([1, 2, 1] : List ℚ).foldl
        (fun s d => record_job_complete s ⟨none, none, none⟩
          [("download", d)] d "cpu" 0) statsInit).stage_times
        "edge_m2m100_large-v3_cpu").getD []) "download" =
      some ⟨[1, 2, 1], 13/10⟩ ∧
    (13/10 : ℚ) ≠ ([1, 2, 1] : List ℚ).sum / ((([1, 2, 1] : List ℚ).length : ℕ) : ℚ) := by
  rcases record_loop ⟨none, none, none⟩ "cpu" "download" 0 [1, 2, 1]
    (by decide) with ⟨tt, hfold, _⟩
  have hkey : profileKey ⟨none, none, none⟩ "cpu" = "edge_m2m100_large-v3_cpu" := rfl
  rw [hkey] at hfold
  rw [hfold]
  have h1 : round1 (1 : ℚ) = 1 := by
    unfold round1
    rw [show (1 : ℚ) * 10 = ((10 : ℤ) : ℚ) by norm_num, pyRound_intCast]
    norm_num
  have h2 : round1 (2 : ℚ) = 2 := by
    unfold round1
    rw [show (2 : ℚ) * 10 = ((20 : ℤ) : ℚ) by norm_num, pyRound_intCast]
    norm_num
  have hw : windowOf [1, 2, 1] = [1, 2, 1] := by
    unfold windowOf
    rw [show (([1, 2, 1] : List ℚ).length - 10) = 0 from rfl]
    rw [List.drop_zero]
    rw [show ([1, 2, 1] : List ℚ).map round1 = [round1 1, round1 2, round1 1] from rfl]
    rw [h1, h2]
  have havg : round1 ((windowOf [1, 2, 1]).sum /
      ((windowOf [1, 2, 1]).length : ℚ)) = 13/10 := by
    rw [hw]
    rw [show ([1, 2, 1] : List ℚ).sum / ((([1, 2, 1] : List ℚ).length : ℕ) : ℚ)
      = 4/3 by norm_num]
    unfold round1
    rw [show (4/3 : ℚ) * 10 = 40/3 by norm_num]
    rw [pyRound_eval_lt (show ⌊(40/3 : ℚ)⌋ = 13 by norm_num) (by norm_num)]
    norm_num
  constructor
  · have hent : (⟨windowOf [1, 2, 1],
        round1 ((windowOf [1, 2, 1]).sum / ((windowOf [1, 2, 1]).length : ℚ))⟩ :
        StageEntry) = ⟨[1, 2, 1], 13/10⟩ := by
      rw [havg, hw]
    rw [← hent]
    simp [alget]
  · norm_num

/-- C6 amended: after recording `n = ds.length ≥ 1` stage-duration samples
for one profile/stage, the stored sample list is the roundings (to one
decimal, as the code stores them) of the `min n 10` most recent durations
with the oldest evicted first, its length is `min n 10`, the stored avg is
the arithmetic mean of the stored samples rounded to one decimal, and the
total-duration history length is capped at `min n 50`. -/
theorem record_window_amended (cfg : JobConfig) (device sid : String)
    (now : ℚ) (ds : List ℚ) (hne : ds ≠ []) :
    ∃ e : StageEntry,
      alget ((alget (ds.foldl
          (fun s d => record_job_complete s cfg [(sid, d)] d device now)
          statsInit).stage_times (profileKey cfg device)).getD []) sid = some e ∧
      e.samples = (ds.map round1).drop (ds.length - 10) ∧
      e.samples.length = min ds.length 10 ∧
      e.avg = round1 (e.samples.sum / (e.samples.length : ℚ)) ∧
      (ds.foldl (fun s d => record_job_complete s cfg [(sid, d)] d device now)
          statsInit).total_times.length = min ds.length 50 := by
  rcases record_loop cfg device sid now ds hne with ⟨tt, hfold, htt⟩
  rw [hfold]
  refine ⟨⟨windowOf ds, round1 ((windowOf ds).sum / ((windowOf ds).length : ℚ))⟩,
    by simp [alget], rfl, ?_, rfl, htt⟩
  show (windowOf ds).length = min ds.length 10
  unfold windowOf
  rw [List.length_drop, List.length_map]
  omega

theorem record_window_amended_witness :
    (alget ((alget (([1, 2, 3, 4, 5, 6, 7, 8, 9, 10, 11, 12, 13, 14, 15] : List ℚ).foldl
        (fun s d => record_job_complete s ⟨none, none, none⟩
          [("download", d)] d "cpu" 0) statsInit).stage_times
        (profileKey ⟨none, none, none⟩ "cpu")).getD []) "download").isSome = true ∧
    (([1, 2, 3, 4, 5, 6, 7, 8, 9, 10, 11, 12, 13, 14, 15] : List ℚ).foldl
        (fun s d => record_job_complete s ⟨none, none, none⟩
          [("download", d)] d "cpu" 0) statsInit).total_times.length = min 15 50 := by
  rcases record_window_amended ⟨none, none, none⟩ "cpu" "download" 0
    [1, 2, 3, 4, 5, 6, 7, 8, 9, 10, 11, 12, 13, 14, 15] (by decide) with
    ⟨e, h1, _, _, _, h5⟩
  exact ⟨by rw [h1]; rfl, h5⟩

/-! ### The single-running-job invariant (C2) -/

theorem not_mem_keys_of_alget_none {β : Type} {l : List (String × β)}
    {k : String} (h : alget l k = none) : k ∉ l.map Prod.fst := by
  intro hk
  rcases List.mem_map.mp hk with ⟨p, hp, hk1⟩
  unfold alget at h
  rw [Option.map_eq_none'] at h
  have := List.find?_eq_none.mp h p hp
  simp [hk1] at this

theorem mem_alset {l : List (String × String)} {k v : String}
    {p : String × String} (hp : p ∈ alset l k v) :
    (p.1 = k ∧ p.2 = v) ∨ (p ∈ l ∧ p.1 ≠ k) := by
  unfold alset at hp
  rcases List.mem_map.mp hp with ⟨q, hq, heq⟩
  by_cases h : q.1 = k
  · left
    rw [← heq]
    simp [h]
  · right
    rw [← heq]
    simp [h]
    exact hq

theorem alset_keys {β : Type} (l : List (String × β)) (k : String) (v : β) :
    (alset l k v).map Prod.fst = l.map Prod.fst := by
  unfold alset
  rw [List.map_map]
  apply List.map_congr_left
  intro p _
  by_cases h : p.1 = k <;> simp [h]

theorem length_le_one_of_nodup_const {α : Type} {l : List α} {c : α}
    (hn : l.Nodup) (hc : ∀ x ∈ l, x = c) : l.length ≤ 1 := by
  match l with
  | [] => simp
  | [a] => simp
  | a :: b :: bs =>
    have ha : a = c := hc a (by simp)
    have hb : b = c := hc b (by simp)
    have : a ≠ b := by
      have := List.nodup_cons.mp hn
      intro hab
      exact this.1 (by rw [hab]; simp)
    exact absurd (ha.trans hb.symm) this

/-- The inductive invariant: every running job is the worker's current
job, and registry keys are distinct. -/
def Inv (s : MState) : Prop :=
  (∀ p ∈ s.jobs, p.2 = "running" → s.current = some p.1) ∧
  (s.jobs.map Prod.fst).Nodup

theorem inv_init : Inv initState :=
  ⟨fun p hp _ => absurd hp (List.not_mem_nil p), List.nodup_nil⟩

theorem inv_step {s t : MState} (hinv : Inv s) (hstep : Step s t) : Inv t := by
  obtain ⟨h1, h2⟩ := hinv
  cases hstep with
  | submit id hfresh =>
    constructor
    · intro p hp hrun
      rcases List.mem_append.mp hp with hp | hp
      · exact h1 p hp hrun
      · simp at hp
        rw [hp] at hrun
        simp at hrun
    · rw [List.map_append]
      rw [List.nodup_append]
      refine ⟨h2, List.nodup_singleton _, ?_⟩
      intro x hx hx1
      simp at hx1
      rw [hx1] at hx
      exact not_mem_keys_of_alget_none hfresh hx
  | dequeueRun id rest hq hidle hst =>
    constructor
    · intro p hp _
      rcases mem_alset hp with ⟨hpk, _⟩ | ⟨hmem, _⟩
      · rw [hpk]
      · exact absurd (hidle ▸ h1 p hmem (by
          rcases mem_alset hp with ⟨_, hv⟩ | ⟨_, _⟩ <;> simp_all)) (by simp)
    · rw [alset_keys]
      exact h2
  | dequeueSkip id rest hq hidle hst =>
    exact ⟨fun p hp hrun => absurd (hidle ▸ h1 p hp hrun) (by simp), h2⟩
  | finish id st hcur hterm =>
    constructor
    · intro p hp hrun
      rcases mem_alset hp with ⟨_, hpv⟩ | ⟨hmem, hpk⟩
      · exfalso
        rw [hpv] at hrun
        rcases hterm with h | h | h <;> rw [h] at hrun <;> exact absurd hrun (by decide)
      · exfalso
        have := h1 p hmem hrun
        rw [hcur] at this
        exact hpk (Option.some.inj this).symm
    · rw [alset_keys]
      exact h2
  | cancel id hrun' =>
    constructor
    · intro p hp hrunp
      rcases mem_alset hp with ⟨_, hpv⟩ | ⟨hmem, _⟩
      · exfalso
        rw [hpv] at hrunp
        exact absurd hrunp (by decide)
      · exact h1 p hmem hrunp
    · rw [alset_keys]
      exact h2
  | delete id st hst hnr =>
    constructor
    · intro p hp hrunp
      exact h1 p (List.mem_filter.mp hp).1 hrunp
    · exact ((List.filter_sublist _).map Prod.fst).nodup h2

theorem inv_reachable (s : MState) (h : Reachable s) : Inv s := by
  induction h with
  | init => exact inv_init
  | step _ hstep ih => exact inv_step ih hstep

/-- C2: in every reachable state of the scheduler transition system (any
interleaving of submit, worker dequeue/run/finish, cancel and delete), at
most one job in the registry has status `running`. -/
theorem at_most_one_running (s : MState) (h : Reachable s) :
    countRunning s.jobs ≤ 1 := by
  obtain ⟨h1, h2⟩ := inv_reachable s h
  unfold countRunning
  rw [List.countP_eq_length_filter]
  cases hc : s.current with
  | none =>
    have hnil : s.jobs.filter (fun p => p.2 == "running") = [] := by
      rw [List.filter_eq_nil_iff]
      intro p hp hrp
      have hrun : p.2 = "running" := by simpa using hrp
      have := h1 p hp hrun
      rw [hc] at this
      exact Option.noConfusion this
    rw [hnil]
    simp
  | some c =>
    have hsub : (s.jobs.filter (fun p => p.2 == "running")).Sublist s.jobs :=
      List.filter_sublist _
    have hkn : ((s.jobs.filter (fun p => p.2 == "running")).map Prod.fst).Nodup :=
      (hsub.map Prod.fst).nodup h2
    have hconst : ∀ x ∈ (s.jobs.filter (fun p => p.2 == "running")).map Prod.fst,
        x = c := by
      intro x hx
      rcases List.mem_map.mp hx with ⟨p, hp, hxx⟩
      have hmem := List.mem_filter.mp hp
      have hrun : p.2 = "running" := by simpa using hmem.2
      have := h1 p hmem.1 hrun
      rw [hc] at this
      rw [← hxx]
      exact (Option.some.inj this).symm
    have hlen := length_le_one_of_nodup_const hkn hconst
    rw [List.length_map] at hlen
    exact hlen

theorem at_most_one_running_witness :
    countRunning [("a", "running")] ≤ 1 :=
  at_most_one_running ⟨[("a", "running")], [], some "a"⟩
    (Reachable.step
      (Reachable.step Reachable.init (Step.submit initState "a" rfl))
      (Step.dequeueRun ⟨[("a", "queued")], ["a"], none⟩ "a" [] rfl rfl rfl))

end Inemavox
